import Mathlib

/-!
Verification development for the Rag-Pipeline repository.

The development shallowly embeds the two core source files:

* `src/app/preprocessing.py` — chunking glue (`preprocess_and_chunk`) and the
  minimum-length filter (`filter_documents`);
* `src/app/embedding.py` — the embedding-store script: load and validate the
  chunks blob, embed all chunk texts in one batch call, assemble and persist
  the record.

Text is `List Char`; metadata is an association list; embedding vectors are
lists of rationals (the script only passes vectors through, so their numeric
representation is irrelevant).  The actual recursive character splitter lives
in the external `langchain` library, not in this repository, so it is modelled
from the specification (see `splitText` below).
-/

namespace RagPipeline

/-- Texts are modelled as lists of characters. -/
abbrev Text := List Char

/-- Metadata mappings are modelled as association lists from keys to values. -/
abbrev Metadata := List (String × String)

/-- A langchain `Document`: a `page_content` text together with a metadata
mapping.  Chunks stored in `chunks.pkl` are values of this shape. -/
structure Document where
  page_content : Text
  metadata : Metadata
deriving DecidableEq, Repr

/-- An embedding vector, a list of numbers (modelled as rationals). -/
abbrev Vec := List ℚ

/-- The record persisted to `app/embeddings/embeddings.pkl` by
`src/app/embedding.py` (lines 48–52): the dict
`{"docs": docs, "metadatas": metadatas, "embeddings": doc_embeddings}`. -/
structure EmbeddingRecord where
  docs : List Text
  metadatas : List Metadata
  embeddings : List Vec
deriving DecidableEq, Repr

/-- Outcome of `pickle.load` on the chunks blob.  `pickle.load` raises
`EOFError` on truncated input and `pickle.UnpicklingError` on malformed
content; `src/app/embedding.py` line 29 catches only `EOFError`. -/
inductive DecodeResult where
  | ok (chunks : List Document)
  | eofError
  | unpicklingError
deriving DecidableEq

/-- The observable state of the chunks blob at `CHUNKS_PATH`:
whether the file exists (`os.path.exists`, line 16), its size
(`os.path.getsize`, line 20), and what `pickle.load` would yield (line 28). -/
structure ChunksFile where
  present : Bool
  size : Nat
  decode : DecodeResult
deriving DecidableEq

/-- The distinct ways a run of `src/app/embedding.py` terminates without
writing the embeddings blob. -/
inductive PipelineError where
  /-- line 17: "Chunks file not found … Run preprocessing.py first." then `sys.exit(1)`. -/
  | missingInput
  /-- line 21: "Chunks file is empty." then `sys.exit(1)`. -/
  | emptyInput
  /-- line 30: "Failed to load chunks. File may be corrupted." then `sys.exit(1)`
  (reached only via the `except EOFError` handler). -/
  | corruptInput
  /-- a `pickle.UnpicklingError` escapes the `except EOFError` handler on
  line 29 and aborts the script with an uncaught traceback. -/
  | uncaughtUnpickling
  /-- line 39: "No documents found in chunks." then `sys.exit(1)`. -/
  | noDocuments
  /-- line 45: `len(doc_embeddings[0])` raises an uncaught `IndexError`
  when the embedding capability returned an empty list. -/
  | indexError
deriving DecidableEq

/-- How a run terminates: either fatally (no blob is written at
`EMBEDDINGS_PATH`) or by saving the assembled record there. -/
inductive RunOutcome where
  | fatal (e : PipelineError)
  | saved (r : EmbeddingRecord)
deriving DecidableEq

/-- Full observable result of one run: the terminal outcome together with the
list of argument lists passed to `embeddings.embed_documents`. -/
structure RunResult where
  outcome : RunOutcome
  embedCalls : List (List Text)
deriving DecidableEq

/-- The top-to-bottom control flow of `src/app/embedding.py` (lines 16–56),
parameterised by the state of the chunks blob and by the embedding capability
`embed` (the script's `embeddings.embed_documents`):

1. line 16: if the chunks file does not exist, exit (`missingInput`);
2. line 20: if it has size zero, exit (`emptyInput`);
3. lines 26–31: `pickle.load`; `EOFError` is caught and exits
   (`corruptInput`); an `UnpicklingError` escapes uncaught;
4. lines 34–35: `docs`/`metadatas` are the chunks' `page_content`/`metadata`
   in blob order;
5. line 38: if `docs` is empty, exit (`noDocuments`);
6. line 44: one batch call `embeddings.embed_documents(docs)`;
7. line 45: `len(doc_embeddings[0])` — an uncaught `IndexError` if the
   returned list is empty;
8. lines 48–56: assemble the record and write it (`saved`). -/
def runEmbedding (file : ChunksFile) (embed : List Text → List Vec) : RunResult :=
  if file.present = false then
    ⟨.fatal .missingInput, []⟩
  else if file.size = 0 then
    ⟨.fatal .emptyInput, []⟩
  else
    match file.decode with
    | .eofError => ⟨.fatal .corruptInput, []⟩
    | .unpicklingError => ⟨.fatal .uncaughtUnpickling, []⟩
    | .ok chunks =>
      let docs := chunks.map (·.page_content)
      let metadatas := chunks.map (·.metadata)
      if docs = [] then
        ⟨.fatal .noDocuments, []⟩
      else
        let doc_embeddings := embed docs
        if doc_embeddings = [] then
          ⟨.fatal .indexError, [docs]⟩
        else
          ⟨.saved ⟨docs, metadatas, doc_embeddings⟩, [docs]⟩

/-- Python's `str.strip()`: remove leading and trailing whitespace
(`src/app/preprocessing.py` line 55 applies it to `d.page_content`). -/
def stripChars (s : Text) : Text :=
  ((s.dropWhile Char.isWhitespace).reverse.dropWhile Char.isWhitespace).reverse

/-- `filter_documents` from `src/app/preprocessing.py` lines 49–58: walk the
documents in order; a document whose stripped text length is strictly below
`min_length` is skipped (`continue`), any other is appended to the output. -/
def filter_documents (docs : List Document) (min_length : Nat) : List Document :=
  match docs with
  | [] => []
  | d :: rest =>
    if (stripChars d.page_content).length < min_length then
      filter_documents rest min_length
    else
      d :: filter_documents rest min_length

/-- `preprocess_and_chunk` from `src/app/preprocessing.py` lines 39–47,
parameterised by the text splitter (the library call
`text_splitter.split_text`): for each document, split its `page_content` and
append one new `Document` per split piece, carrying the originating
document's metadata.  The nested `for` loops with `append` are rendered as
nested left folds over an accumulator. -/
def preprocess_and_chunk (splitter : Text → List Text) (docs : List Document) :
    List Document :=
  docs.foldl
    (fun chunked_docs doc =>
      (splitter doc.page_content).foldl
        (fun acc chunk => acc ++ [⟨chunk, doc.metadata⟩]) chunked_docs)
    []

/-! ## The text splitter

The splitter used at `src/app/preprocessing.py` line 34 is langchain's
`RecursiveCharacterTextSplitter`, which is external library code, not part of
this repository.  It is therefore modelled from the specification (§4.1):
recursive separator fallback producing elementary pieces, a greedy merge pass
bounded by `chunk_size`, and an overlap pass prefixing each segment after the
first with the trailing `chunk_overlap` characters of the previous segment's
pre-overlap text. -/

/-- The trailing `n` characters of `l` (all of `l` when it is shorter). -/
def takeRight (n : Nat) (l : Text) : Text :=
  l.drop (l.length - n)

/-- Index of the first occurrence of `sep` in `text`, if any. -/
def findSepIdx (sep : Text) : Text → Option Nat
  | [] => if sep = [] then some 0 else none
  | c :: rest =>
    if sep.isPrefixOf (c :: rest) then some 0
    else (findSepIdx sep rest).map (· + 1)

theorem findSepIdx_nil_of_ne (sep : Text) (h : ¬sep = []) :
    findSepIdx sep [] = none := by
  simp [findSepIdx, h]

/-- Modelled from the spec: split `text` at every occurrence of the separator
`sep`, dropping the separator (spec §4.1: "split `text` on the first
separator in the list").  An empty separator is handled by the caller. -/
def splitOnSep (sep : Text) (text : Text) : List Text :=
  if hs : sep = [] then [text]
  else
    match hf : findSepIdx sep text with
    | none => [text]
    | some k => text.take k :: splitOnSep sep (text.drop (k + sep.length))
termination_by text.length
decreasing_by
  have htext : ¬text = [] := by
    intro he
    rw [he, findSepIdx_nil_of_ne sep hs] at hf
    exact Option.noConfusion hf
  have h1 : 0 < text.length := List.length_pos.mpr htext
  have h2 : 0 < sep.length := List.length_pos.mpr hs
  simp only [List.length_drop]
  omega

/-- Modelled from the spec (§4.1): recursive separator fallback.  The text is
split on the first separator (the empty separator meaning character-level
split); any piece still exceeding `chunk_size` is recursively re-split with
the remaining, more granular separators; when the separator list is
exhausted the piece is emitted as-is. -/
def splitPieces (chunk_size : Nat) : List Text → Text → List Text
  | [], text => [text]
  | sep :: rest, text =>
    (if sep = [] then text.map (fun c => [c]) else splitOnSep sep text).flatMap
      (fun p => if chunk_size < p.length then splitPieces chunk_size rest p else [p])

/-- Modelled from the spec (§4.1): greedy merge of elementary pieces —
accumulate consecutive pieces while the running length stays within
`chunk_size`; when the next piece would exceed it, close the current segment
and start a new one. -/
def mergeAux (chunk_size : Nat) : Text → List Text → List Text
  | cur, [] => [cur]
  | cur, p :: ps =>
    if cur.length + p.length ≤ chunk_size then
      mergeAux chunk_size (cur ++ p) ps
    else
      cur :: mergeAux chunk_size p ps

/-- Modelled from the spec (§4.1): merge elementary pieces into pre-overlap
segments (empty piece list gives no segments). -/
def mergePieces (chunk_size : Nat) : List Text → List Text
  | [] => []
  | p :: ps => mergeAux chunk_size p ps

/-- Modelled from the spec (§4.1): the overlap pass on the segments after the
first, where `prev` is the previous segment's pre-overlap text. -/
def applyOverlapAux (chunk_overlap : Nat) : Text → List Text → List Text
  | _, [] => []
  | prev, m :: ms => (takeRight chunk_overlap prev ++ m) :: applyOverlapAux chunk_overlap m ms

/-- Modelled from the spec (§4.1): "each new segment (after the first) is
prefixed with the trailing `chunk_overlap` characters of the previous
segment's text". -/
def applyOverlap (chunk_overlap : Nat) : List Text → List Text
  | [] => []
  | m :: ms => m :: applyOverlapAux chunk_overlap m ms

/-- Modelled from the spec (§4.1): the full splitter contract
`split(text, chunk_size, chunk_overlap, separators)` — recursive splitting,
greedy merge, then the overlap pass. -/
def splitText (chunk_size chunk_overlap : Nat) (separators : List Text)
    (text : Text) : List Text :=
  applyOverlap chunk_overlap (mergePieces chunk_size (splitPieces chunk_size separators text))

/-! ## Theorems about the embedding-store script -/

/-- C3 (amended): the load step performs the existence, non-emptiness and
decode checks in this order, each short-circuiting with a distinct error; a
decode failure raising `EOFError` is diagnosed as the corrupted-file error,
while a decode failure raising a different exception (such as
`pickle.UnpicklingError` on garbage bytes) escapes the `except EOFError`
handler uncaught instead of being diagnosed. -/
theorem load_checks_ordered :
    (∀ (size : Nat) (dec : DecodeResult) (embed : List Text → List Vec),
      (runEmbedding ⟨false, size, dec⟩ embed).outcome = .fatal .missingInput)
    ∧ (∀ (dec : DecodeResult) (embed : List Text → List Vec),
      (runEmbedding ⟨true, 0, dec⟩ embed).outcome = .fatal .emptyInput)
    ∧ (∀ (size : Nat) (embed : List Text → List Vec), 0 < size →
      (runEmbedding ⟨true, size, .eofError⟩ embed).outcome = .fatal .corruptInput)
    ∧ (∀ (size : Nat) (embed : List Text → List Vec), 0 < size →
      (runEmbedding ⟨true, size, .unpicklingError⟩ embed).outcome
        = .fatal .uncaughtUnpickling) := by
  refine ⟨?_, ?_, ?_, ?_⟩
  · intro size dec embed; simp [runEmbedding]
  · intro dec embed; simp [runEmbedding]
  · intro size embed h
    have hne : ¬size = 0 := by omega
    simp [runEmbedding, hne]
  · intro size embed h
    have hne : ¬size = 0 := by omega
    simp [runEmbedding, hne]

/-- Witness for `load_checks_ordered` at concrete inputs. -/
theorem load_checks_ordered_witness :
    (runEmbedding ⟨true, 5, .eofError⟩ (fun _ => [])).outcome
      = .fatal .corruptInput :=
  load_checks_ordered.2.2.1 5 (fun _ => []) (by decide)

/-- C3 counterexample: a present, non-empty blob whose decode fails with
`pickle.UnpicklingError` is not diagnosed as the corrupted-file error kind —
the exception escapes the `except EOFError` handler uncaught. -/
theorem load_decode_uncaught_cex :
    (runEmbedding ⟨true, 5, .unpicklingError⟩ (fun _ => [])).outcome
      = .fatal .uncaughtUnpickling
    ∧ (runEmbedding ⟨true, 5, .unpicklingError⟩ (fun _ => [])).outcome
      ≠ .fatal .corruptInput := by
  exact ⟨by decide, by decide⟩

/-- C4: when decode succeeds but yields zero chunks, the run exits fatally
with the no-documents diagnosis, the embedding capability is never invoked,
and no store blob is written. -/
theorem no_documents_fatal (size : Nat) (embed : List Text → List Vec)
    (h : 0 < size) :
    (runEmbedding ⟨true, size, .ok []⟩ embed).outcome = .fatal .noDocuments
    ∧ (runEmbedding ⟨true, size, .ok []⟩ embed).embedCalls = [] := by
  have hne : ¬size = 0 := by omega
  exact ⟨by simp [runEmbedding, hne], by simp [runEmbedding, hne]⟩

/-- Witness for `no_documents_fatal` at a concrete input. -/
theorem no_documents_fatal_witness :
    (runEmbedding ⟨true, 1, .ok []⟩ (fun _ => [])).outcome = .fatal .noDocuments
    ∧ (runEmbedding ⟨true, 1, .ok []⟩ (fun _ => [])).embedCalls = [] :=
  no_documents_fatal 1 (fun _ => []) (by decide)

/-- C6: one chunk `{"text": "hello world", "metadata": {}}` and an embedding
capability returning `[[0.1, 0.2]]` produce exactly the record
`{"docs": ["hello world"], "metadatas": [{}], "embeddings": [[0.1, 0.2]]}`. -/
theorem hello_world_scenario :
    (runEmbedding ⟨true, 1, .ok [⟨"hello world".toList, []⟩]⟩
      (fun _ => [[(1:ℚ)/10, 1/5]])).outcome
    = .saved ⟨["hello world".toList], [[]], [[(1:ℚ)/10, 1/5]]⟩ := rfl

/-- C1 counterexample: two chunk texts are submitted but only one vector is
returned, and the run nevertheless succeeds — the misaligned record is
written to the embeddings path and no error of any kind is raised. -/
theorem alignment_unchecked_cex :
    (runEmbedding ⟨true, 5, .ok [⟨"ab".toList, []⟩, ⟨"cd".toList, []⟩]⟩
      (fun _ => [[(1:ℚ)]])).outcome
    = .saved ⟨["ab".toList, "cd".toList], [[], []], [[(1:ℚ)]]⟩
    ∧ [[(1:ℚ)]].length ≠ ["ab".toList, "cd".toList].length := by
  exact ⟨by decide, by decide⟩

/-- C1 (amended): the script performs no alignment check at all — whenever
the embedding capability returns a non-empty vector list whose length
differs from the number of submitted chunk texts, the run still succeeds and
persists the misaligned record exactly as returned. -/
theorem mismatched_embeddings_persisted (size : Nat) (chunks : List Document)
    (embed : List Text → List Vec) (h0 : 0 < size) (h1 : chunks ≠ [])
    (h2 : embed (chunks.map (·.page_content)) ≠ [])
    (h3 : (embed (chunks.map (·.page_content))).length ≠ chunks.length) :
    (runEmbedding ⟨true, size, .ok chunks⟩ embed).outcome
      = .saved ⟨chunks.map (·.page_content), chunks.map (·.metadata),
          embed (chunks.map (·.page_content))⟩ := by
  have hne : ¬size = 0 := by omega
  have hd : ¬chunks.map (·.page_content) = [] := by simpa using h1
  simp [runEmbedding, hne, hd, h2]

/-- Witness for `mismatched_embeddings_persisted` at a concrete input. -/
theorem mismatched_embeddings_persisted_witness :
    (runEmbedding ⟨true, 5, .ok [⟨"ab".toList, []⟩, ⟨"cd".toList, []⟩]⟩
      (fun _ => [[(1:ℚ)]])).outcome
    = .saved ⟨["ab".toList, "cd".toList], [[], []], [[(1:ℚ)]]⟩ :=
  mismatched_embeddings_persisted 5 [⟨"ab".toList, []⟩, ⟨"cd".toList, []⟩]
    (fun _ => [[(1:ℚ)]]) (by decide) (by decide) (by decide) (by decide)

/-- C9: if the embedding capability returns an empty vector list for a
non-empty chunk list, the dimensionality report indexes into the empty list
and the run aborts with the uncaught index error after calling `embed` but
before writing any blob; and whenever the capability returns at least one
vector, that failing branch is unreachable. -/
theorem empty_embed_index_error :
    (∀ (size : Nat) (chunks : List Document) (embed : List Text → List Vec),
      0 < size → chunks ≠ [] → embed (chunks.map (·.page_content)) = [] →
        (runEmbedding ⟨true, size, .ok chunks⟩ embed).outcome = .fatal .indexError
        ∧ (runEmbedding ⟨true, size, .ok chunks⟩ embed).embedCalls
          = [chunks.map (·.page_content)])
    ∧ (∀ (file : ChunksFile) (embed : List Text → List Vec),
      (∀ ts, embed ts ≠ []) →
        (runEmbedding file embed).outcome ≠ .fatal .indexError) := by
  constructor
  · intro size chunks embed h0 h1 h2
    have hne : ¬size = 0 := by omega
    have hd : ¬chunks.map (·.page_content) = [] := by simpa using h1
    exact ⟨by simp [runEmbedding, hne, hd, h2], by simp [runEmbedding, hne, hd, h2]⟩
  · intro file embed h
    rcases file with ⟨present, size, dec⟩
    by_cases hp : present = false
    · simp [runEmbedding, hp]
    · by_cases hsz : size = 0
      · simp [runEmbedding, hp, hsz]
      · cases dec with
        | eofError => simp [runEmbedding, hp, hsz]
        | unpicklingError => simp [runEmbedding, hp, hsz]
        | ok chunks =>
          by_cases hd : chunks.map (·.page_content) = []
          · simp [runEmbedding, hp, hsz, hd]
          · simp [runEmbedding, hp, hsz, hd, h (chunks.map (·.page_content))]

/-- Witness for `empty_embed_index_error` at concrete inputs. -/
theorem empty_embed_index_error_witness :
    ((runEmbedding ⟨true, 1, .ok [⟨"a".toList, []⟩]⟩ (fun _ => [])).outcome
        = .fatal .indexError
      ∧ (runEmbedding ⟨true, 1, .ok [⟨"a".toList, []⟩]⟩ (fun _ => [])).embedCalls
        = [["a".toList]])
    ∧ (runEmbedding ⟨true, 1, .ok [⟨"a".toList, []⟩]⟩
        (fun _ => [[(1:ℚ)]])).outcome ≠ .fatal .indexError := by
  constructor
  · exact empty_embed_index_error.1 1 [⟨"a".toList, []⟩] (fun _ => [])
      (by decide) (by decide) (by decide)
  · exact empty_embed_index_error.2 ⟨true, 1, .ok [⟨"a".toList, []⟩]⟩
      (fun _ => [[(1:ℚ)]]) (fun _ => List.cons_ne_nil _ _)

/-- C8: in any run that ends by saving a record, `embed_documents` was
invoked exactly once, and its single argument was the full list of decoded
chunk texts in blob order (which is also the record's `docs` field). -/
theorem embed_called_once (file : ChunksFile) (embed : List Text → List Vec)
    (r : EmbeddingRecord)
    (h : (runEmbedding file embed).outcome = .saved r) :
    (runEmbedding file embed).embedCalls = [r.docs]
    ∧ ∃ chunks : List Document, file.decode = .ok chunks
        ∧ r.docs = chunks.map (·.page_content) := by
  rcases file with ⟨present, size, dec⟩
  by_cases hp : present = false
  · simp [runEmbedding, hp] at h
  · by_cases hsz : size = 0
    · simp [runEmbedding, hp, hsz] at h
    · cases dec with
      | eofError => simp [runEmbedding, hp, hsz] at h
      | unpicklingError => simp [runEmbedding, hp, hsz] at h
      | ok chunks =>
        by_cases hd : chunks.map (·.page_content) = []
        · simp [runEmbedding, hp, hsz, hd] at h
        · by_cases he : embed (chunks.map (·.page_content)) = []
          · simp [runEmbedding, hp, hsz, hd, he] at h
          · have hrun : runEmbedding ⟨present, size, DecodeResult.ok chunks⟩ embed
                = ⟨.saved ⟨chunks.map (·.page_content), chunks.map (·.metadata),
                    embed (chunks.map (·.page_content))⟩,
                  [chunks.map (·.page_content)]⟩ := by
              simp [runEmbedding, hp, hsz, hd, he]
            rw [hrun] at h ⊢
            have hr : (⟨chunks.map (·.page_content), chunks.map (·.metadata),
                embed (chunks.map (·.page_content))⟩ : EmbeddingRecord) = r := by
              simpa using h
            subst hr
            exact ⟨rfl, chunks, rfl, rfl⟩

/-- Witness for `embed_called_once` at a concrete successful run. -/
theorem embed_called_once_witness :
    (runEmbedding ⟨true, 1, .ok [⟨"a".toList, []⟩]⟩
        (fun _ => [[(1:ℚ)]])).embedCalls
      = [(⟨["a".toList], [[]], [[(1:ℚ)]]⟩ : EmbeddingRecord).docs]
    ∧ ∃ chunks : List Document,
        (⟨true, 1, .ok [⟨"a".toList, []⟩]⟩ : ChunksFile).decode = .ok chunks
        ∧ (⟨["a".toList], [[]], [[(1:ℚ)]]⟩ : EmbeddingRecord).docs
          = chunks.map (·.page_content) :=
  embed_called_once ⟨true, 1, .ok [⟨"a".toList, []⟩]⟩ (fun _ => [[(1:ℚ)]])
    ⟨["a".toList], [[]], [[(1:ℚ)]]⟩ (by decide)

/-- C5: for a non-empty chunk list and an embedding capability returning one
vector per submitted text, the run saves a record whose three sequences have
equal length, and whose entries at every index `i` all derive from chunk `i`:
its text, its metadata, and the `i`-th returned vector. -/
theorem record_alignment (size : Nat) (chunks : List Document)
    (embed : List Text → List Vec) (h0 : 0 < size) (h1 : chunks ≠ [])
    (h2 : (embed (chunks.map (·.page_content))).length = chunks.length) :
    ∃ r : EmbeddingRecord,
      (runEmbedding ⟨true, size, .ok chunks⟩ embed).outcome = .saved r
      ∧ r.docs.length = r.metadatas.length
      ∧ r.metadatas.length = r.embeddings.length
      ∧ ∀ i : Nat, i < chunks.length →
          r.docs.get? i = (chunks.get? i).map (·.page_content)
          ∧ r.metadatas.get? i = (chunks.get? i).map (·.metadata)
          ∧ r.embeddings.get? i = (embed (chunks.map (·.page_content))).get? i := by
  have hne : ¬size = 0 := by omega
  have hd : ¬chunks.map (·.page_content) = [] := by simpa using h1
  have he : ¬embed (chunks.map (·.page_content)) = [] := by
    intro hemp
    rw [hemp] at h2
    exact h1 (List.length_eq_zero.mp h2.symm)
  refine ⟨⟨chunks.map (·.page_content), chunks.map (·.metadata),
      embed (chunks.map (·.page_content))⟩, ?_, ?_, ?_, ?_⟩
  · simp [runEmbedding, hne, hd, he]
  · simp
  · simp [h2]
  · intro i hi
    exact ⟨by simp [List.get?_map], by simp [List.get?_map], rfl⟩

/-- Witness for `record_alignment` at a concrete input. -/
theorem record_alignment_witness :
    ∃ r : EmbeddingRecord,
      (runEmbedding ⟨true, 3, .ok [⟨"ab".toList, []⟩, ⟨"cd".toList, []⟩]⟩
        (fun _ => [[(1:ℚ)], [(2:ℚ)]])).outcome = .saved r
      ∧ r.docs.length = r.metadatas.length
      ∧ r.metadatas.length = r.embeddings.length
      ∧ ∀ i : Nat, i < ([⟨"ab".toList, []⟩, ⟨"cd".toList, []⟩] : List Document).length →
          r.docs.get? i
            = (([⟨"ab".toList, []⟩, ⟨"cd".toList, []⟩] : List Document).get? i).map
                (·.page_content)
          ∧ r.metadatas.get? i
            = (([⟨"ab".toList, []⟩, ⟨"cd".toList, []⟩] : List Document).get? i).map
                (·.metadata)
          ∧ r.embeddings.get? i
            = ((fun (_ : List Text) => [[(1:ℚ)], [(2:ℚ)]])
                (([⟨"ab".toList, []⟩, ⟨"cd".toList, []⟩] : List Document).map
                  (·.page_content))).get? i :=
  record_alignment 3 [⟨"ab".toList, []⟩, ⟨"cd".toList, []⟩]
    (fun _ => [[(1:ℚ)], [(2:ℚ)]]) (by decide) (by decide) (by decide)

/-! ## Theorems about preprocessing -/

/-- C7: `filter_documents` keeps exactly the documents whose stripped text
length is at least `min_length` (a document is dropped iff its stripped
length is strictly smaller), in their original relative order with each
survivor unchanged — it is the plain list filter by that predicate, and in
particular a sublist of the input. -/
theorem filter_documents_spec (docs : List Document) (min_length : Nat) :
    filter_documents docs min_length
      = docs.filter (fun d => decide (min_length ≤ (stripChars d.page_content).length))
    ∧ List.Sublist (filter_documents docs min_length) docs := by
  have heq : filter_documents docs min_length
      = docs.filter (fun d => decide (min_length ≤ (stripChars d.page_content).length)) := by
    induction docs with
    | nil => rfl
    | cons d rest ih =>
      by_cases hlt : (stripChars d.page_content).length < min_length
      · have hb : decide (min_length ≤ (stripChars d.page_content).length) = false :=
          decide_eq_false (by omega)
        simp [filter_documents, hlt, List.filter_cons, hb, ih]
      · have hb : decide (min_length ≤ (stripChars d.page_content).length) = true :=
          decide_eq_true (by omega)
        simp [filter_documents, hlt, List.filter_cons, hb, ih]
  exact ⟨heq, by rw [heq]; exact List.filter_sublist _⟩

theorem foldl_append_singleton {α β : Type} (f : α → β) (l : List α)
    (acc : List β) :
    l.foldl (fun a x => a ++ [f x]) acc = acc ++ l.map f := by
  induction l generalizing acc with
  | nil => simp
  | cons x xs ih => simp [ih]

/-- C10: the chunking loop concatenates, in input-document order, each
document's split pieces in split order, each piece paired with the
originating document's metadata unchanged; an empty input yields an empty
output. -/
theorem chunk_concat_spec (splitter : Text → List Text) (docs : List Document) :
    preprocess_and_chunk splitter docs
      = docs.flatMap (fun d => (splitter d.page_content).map (fun c => ⟨c, d.metadata⟩))
    ∧ preprocess_and_chunk splitter [] = [] := by
  constructor
  · have hgo : ∀ (ds : List Document) (acc : List Document),
        ds.foldl (fun chunked_docs doc =>
          (splitter doc.page_content).foldl
            (fun a chunk => a ++ [⟨chunk, doc.metadata⟩]) chunked_docs) acc
        = acc ++ ds.flatMap
            (fun d => (splitter d.page_content).map (fun c => ⟨c, d.metadata⟩)) := by
      intro ds
      induction ds with
      | nil => intro acc; simp
      | cons d rest ih =>
        intro acc
        rw [List.foldl_cons, foldl_append_singleton, ih]
        simp
    simpa [preprocess_and_chunk] using hgo docs []
  · rfl

theorem applyOverlapAux_length (chunk_overlap : Nat) (prev : Text)
    (ms : List Text) :
    (applyOverlapAux chunk_overlap prev ms).length = ms.length := by
  induction ms generalizing prev with
  | nil => rfl
  | cons m ms ih => simp [applyOverlapAux, ih]

theorem applyOverlapAux_getD (chunk_overlap : Nat) (prev : Text)
    (ms : List Text) (i : Nat) (hi : i < ms.length) :
    (applyOverlapAux chunk_overlap prev ms).getD i []
      = takeRight chunk_overlap ((prev :: ms).getD i []) ++ ms.getD i [] := by
  induction ms generalizing prev i with
  | nil => simp at hi
  | cons m ms ih =>
    cases i with
    | zero => rfl
    | succ n =>
      have hn : n < ms.length := by simpa using hi
      simpa [applyOverlapAux] using ih m n hn

/-- C2: for every text, `chunk_size`, `chunk_overlap` with
`chunk_overlap < chunk_size` and every separator list, every segment emitted
by the splitter except the first begins with the trailing `chunk_overlap`
characters of the previous segment's pre-overlap text (the corresponding
segment of the merge pass). -/
theorem segment_overlap_prefix (text : Text) (chunk_size chunk_overlap : Nat)
    (separators : List Text) (h : chunk_overlap < chunk_size) (i : Nat)
    (hi : i + 1 < (splitText chunk_size chunk_overlap separators text).length) :
    takeRight chunk_overlap
        ((mergePieces chunk_size (splitPieces chunk_size separators text)).getD i [])
      <+: (splitText chunk_size chunk_overlap separators text).getD (i + 1) [] := by
  unfold splitText at hi ⊢
  cases hms : mergePieces chunk_size (splitPieces chunk_size separators text) with
  | nil => rw [hms] at hi; simp [applyOverlap] at hi
  | cons m ms =>
    rw [hms] at hi
    have hlen : (applyOverlapAux chunk_overlap m ms).length = ms.length :=
      applyOverlapAux_length chunk_overlap m ms
    have hi2 : i < ms.length := by
      simpa [applyOverlap, hlen] using hi
    have hstep : (applyOverlap chunk_overlap (m :: ms)).getD (i + 1) []
        = (applyOverlapAux chunk_overlap m ms).getD i [] := by
      simp [applyOverlap]
    rw [hstep, applyOverlapAux_getD chunk_overlap m ms i hi2]
    exact ⟨ms.getD i [], rfl⟩

/-- Witness for `segment_overlap_prefix` on the spec's §8 scenario:
`chunk_size = 10`, `chunk_overlap = 2`, character-level separator, and the
text `"abcdefghijklmno"` (which splits into `"abcdefghij"` and
`"ijklmno"`). -/
theorem segment_overlap_prefix_witness :
    takeRight 2
        ((mergePieces 10 (splitPieces 10 [[]] "abcdefghijklmno".toList)).getD 0 [])
      <+: (splitText 10 2 [[]] "abcdefghijklmno".toList).getD (0 + 1) [] :=
  segment_overlap_prefix "abcdefghijklmno".toList 10 2 [[]] (by decide) 0 (by decide)

end RagPipeline
